import Mathlib

/-!
# Verification of the fairness-metric engine

A shallow embedding of the fairness-checking scripts `fair.py`, `fair2.py`
and `faircompas.py`: statistical parity, conditional statistical parity,
per-group TPR/FPR performance metrics, target-column preprocessing and the
per-column analysis loop.  Tables are ordered lists of rows; a cell holds a
number, a string, a null (pandas NaN) or a small list of scalars.  Counting
and grouping follow the pandas semantics the scripts rely on: `groupby`
drops null keys, `Series.unique` keeps them, and `==` comparisons against a
null are always false (NaN never equals anything).  Proportions and rates
are rationals.
-/

/-- A scalar cell value: a number, a string, or a null (pandas NaN / None). -/
inductive Scalar where
  | null
  | int (n : ℤ)
  | str (s : String)
deriving DecidableEq, Repr

/-- A cell of the table: a scalar or a small list of scalars (the raw
`labels` column of the dataset holds list-valued cells). -/
inductive Value where
  | scalar (v : Scalar)
  | list (xs : List Scalar)
deriving DecidableEq, Repr

/-- The null cell (pandas NaN / Python None). -/
def vnull : Value := .scalar .null

/-- An integer cell. -/
def vint (n : ℤ) : Value := .scalar (.int n)

/-- A string cell. -/
def vstr (s : String) : Value := .scalar (.str s)

/-- `isinstance(x, list)`. -/
def Value.isList : Value → Bool
  | .list _ => true
  | _ => false

/-- Whether a cell is the null/NaN cell. -/
def Value.isNull : Value → Bool
  | .scalar .null => true
  | _ => false

/-- Pandas `==` on cells: a comparison that involves a null is false
(NaN compares unequal to everything, itself included); otherwise the
comparison is equality of the stored values. -/
def valEq : Value → Value → Bool
  | .scalar .null, _ => false
  | _, .scalar .null => false
  | a, b => decide (a = b)

/-- A row: an association of column names to cell values. -/
abbrev Row := List (String × Value)

/-- The cell of row `r` in column `c`; a column with no cell stored in this
row reads as null (the NaN a ragged pandas frame shows there). -/
def rowGet (r : Row) (c : String) : Value :=
  ((r.find? (fun p => p.1 == c)).map Prod.snd).getD vnull

/-- Overwrite column `c` of row `r` with value `v` (pandas column
assignment, `df[c] = ...`, applied rowwise). -/
def rowSet (r : Row) (c : String) (v : Value) : Row :=
  r.map (fun p => if p.1 == c then (p.1, v) else p)

/-- A table: its column names (`df.columns`) and its rows. -/
structure Table where
  cols : List String
  rows : List Row
deriving DecidableEq, Repr

/-- The column `c` of the table as a list of cells, in row order. -/
def colVals (df : Table) (c : String) : List Value :=
  df.rows.map (fun r => rowGet r c)

/-! ## Statistical parity (`statistical_parity_check`, fair.py 19-23,
identical in fair2.py and faircompas.py)

`df[df[t] == tv].groupby(s).size() / df.groupby(s).size()`, then
`.fillna(0)`.  `groupby` drops null keys, so the group keys are the
distinct non-null values of the sensitive column over the whole table; the
aligned division gives, for each such key, the count of rows with that
sensitive value and target equal to `tv` over the count of all rows with
that sensitive value (a key absent from the numerator divides to NaN and
`fillna` turns it into 0, the same value the count-0 numerator gives). -/

/-- The distinct non-null values of column `s` (the `groupby` keys). -/
def spcGroups (df : Table) (s : String) : List Value :=
  ((colVals df s).filter (fun v => !v.isNull)).dedup

/-- Numerator count for group `g`: rows whose sensitive cell equals `g` and
whose target cell equals `tv` (pandas `==`, so null targets never match). -/
def spcNum (df : Table) (s t : String) (tv : Value) (g : Value) : ℕ :=
  df.rows.countP (fun r => valEq (rowGet r s) g && valEq (rowGet r t) tv)

/-- Denominator count for group `g`: all rows of the entire table whose
sensitive cell equals `g`, whatever their target. -/
def spcDen (df : Table) (s : String) (g : Value) : ℕ :=
  df.rows.countP (fun r => valEq (rowGet r s) g)

/-- The group proportion map `proportions.to_dict()`: one entry per distinct
non-null sensitive value, holding numerator over denominator. -/
def statistical_parity_map (df : Table) (s t : String) (tv : Value) :
    List (Value × ℚ) :=
  (spcGroups df s).map (fun g =>
    (g, (spcNum df s t tv g : ℚ) / (spcDen df s g : ℚ)))

/-- Python `max` over a list of rationals (0 on the empty list, on which the
real `max` raises instead; callers guard the empty case). -/
def maxQ : List ℚ → ℚ
  | [] => 0
  | x :: xs => xs.foldl max x

/-- Python `min` over a list of rationals (0 on the empty list). -/
def minQ : List ℚ → ℚ
  | [] => 0
  | x :: xs => xs.foldl min x

/-- The proportions of the map, in map order (`disparities.values()`). -/
def spcProps (df : Table) (s t : String) (tv : Value) : List ℚ :=
  (statistical_parity_map df s t tv).map Prod.snd

/-- `max(disparities.values()) - min(disparities.values())`. -/
def spcDisparity (df : Table) (s t : String) (tv : Value) : ℚ :=
  maxQ (spcProps df s t tv) - minQ (spcProps df s t tv)

/-- `statistical_parity_check` of fair.py (and fair2.py): returns the
proportion map and the verdict `max - min <= 0.1`.  On an empty map the
Python `max()` call raises `ValueError`, modelled as `.error`. -/
def statistical_parity_check (df : Table) (s t : String) (tv : Value) :
    Except String (List (Value × ℚ) × Bool) :=
  if statistical_parity_map df s t tv = [] then
    .error "max() arg is an empty sequence"
  else
    .ok (statistical_parity_map df s t tv,
         decide (spcDisparity df s t tv ≤ 1 / 10))

/-- `statistical_parity_check` of faircompas.py (lines 67-82): the same
computation, but an empty proportion map is caught (`if not disparities`)
and reported as `({}, True)` instead of reaching the raising `max()`. -/
def statistical_parity_check_compas (df : Table) (s t : String) (tv : Value) :
    List (Value × ℚ) × Bool :=
  if statistical_parity_map df s t tv = [] then
    ([], true)
  else
    (statistical_parity_map df s t tv,
     decide (spcDisparity df s t tv ≤ 1 / 10))

/-! ## Target preprocessing (`preprocess_target_column`, fair.py 32-39,
identical in fair2.py 53-60)

If any cell of the target column is a list, every cell of the column is
replaced by `x[0] if isinstance(x, list) and len(x) > 0 else None`: a
non-empty list by its first element, and everything else -- the empty list
but also every non-list cell -- by None.  If no cell is a list the column
is left untouched. -/

/-- The lambda applied to each cell when the column is rewritten. -/
def flattenCell : Value → Value
  | .list (x :: _) => .scalar x
  | _ => vnull

/-- `preprocess_target_column` of fair.py / fair2.py. -/
def preprocess_target_column (df : Table) (t : String) : Table :=
  if df.rows.any (fun r => (rowGet r t).isList) then
    { df with rows := df.rows.map (fun r => rowSet r t (flattenCell (rowGet r t))) }
  else df

/-! ## Conditional statistical parity (`conditional_statistical_parity`,
fair2.py 32-39)

`df.groupby([s, c])[t].mean()`: the keys are the pairs of non-null
(sensitive, control) values occurring together in some row, and each cell
holds the mean of the target over the rows of that cell, pandas `mean`
skipping non-numeric (null) entries.  The trailing `.unstack()` only
reshapes the keyed series into a rectangle for display (padding absent
pairs with NaN); the matrix itself is the keyed series, modelled as an
association list. -/

/-- Numeric reading of a cell, for `mean`: an integer cell as a rational,
anything else skipped. -/
def Value.toQ : Value → Option ℚ
  | .scalar (.int n) => some (n : ℚ)
  | _ => none

/-- The `groupby([s, c])` keys: distinct pairs of non-null sensitive and
control values occurring in some row. -/
def cspKeys (df : Table) (s c : String) : List (Value × Value) :=
  ((df.rows.map (fun r => (rowGet r s, rowGet r c))).filter
    (fun p => !p.1.isNull && !p.2.isNull)).dedup

/-- The rows of the cell keyed by `k` (pandas `==` on both components). -/
def cspRows (df : Table) (s c : String) (k : Value × Value) : List Row :=
  df.rows.filter (fun r => valEq (rowGet r s) k.1 && valEq (rowGet r c) k.2)

/-- The numeric target entries of a cell, the ones `mean` averages. -/
def cspNums (df : Table) (s t c : String) (k : Value × Value) : List ℚ :=
  (cspRows df s c k).filterMap (fun r => (rowGet r t).toQ)

/-- `conditional_statistical_parity` of fair2.py: the keyed matrix of cell
means. -/
def conditional_statistical_parity (df : Table) (s t c : String) :
    List ((Value × Value) × ℚ) :=
  (cspKeys df s c).map (fun k =>
    (k, (cspNums df s t c k).sum / ((cspNums df s t c k).length : ℚ)))

/-! ## Model performance (`evaluate_model_performance`, fair2.py 41-51)

For each `group in df[s].unique()` (unique keeps a null entry, unlike
groupby): positives are the group's rows with target == 1, negatives those
with target == 0; TPR and FPR divide the prediction == 1 counts by the two
sizes with plain integer division, so a group with no positives (or no
negatives) raises `ZeroDivisionError`, modelled as `none` for the whole
call. -/

/-- `df[s].unique()`: the distinct values of the column, nulls included. -/
def uniqueVals (df : Table) (c : String) : List Value :=
  (colVals df c).dedup

/-- `group_data`: the rows of group `g` (pandas `==`, so a null `g` selects
no rows). -/
def empGroupRows (df : Table) (s : String) (g : Value) : List Row :=
  df.rows.filter (fun r => valEq (rowGet r s) g)

/-- The group's rows with target == 1 (ground-truth positives). -/
def empPos (df : Table) (s t : String) (g : Value) : List Row :=
  (empGroupRows df s g).filter (fun r => valEq (rowGet r t) (vint 1))

/-- The group's rows with target == 0 (ground-truth negatives). -/
def empNeg (df : Table) (s t : String) (g : Value) : List Row :=
  (empGroupRows df s g).filter (fun r => valEq (rowGet r t) (vint 0))

/-- True positives: positives with prediction == 1. -/
def empTP (df : Table) (s t p : String) (g : Value) : ℕ :=
  (empPos df s t g).countP (fun r => valEq (rowGet r p) (vint 1))

/-- False positives: negatives with prediction == 1. -/
def empFP (df : Table) (s t p : String) (g : Value) : ℕ :=
  (empNeg df s t g).countP (fun r => valEq (rowGet r p) (vint 1))

/-- The loop body of `evaluate_model_performance` over a list of groups:
one (group, TPR, FPR) triple per group, `none` as soon as a division by
zero is hit (the TPR division is evaluated before the FPR one; both
zero-denominator cases abort the whole call). -/
def empGo (df : Table) (s t p : String) : List Value → Option (List (Value × ℚ × ℚ))
  | [] => some []
  | g :: gs =>
    if (empPos df s t g).length = 0 then none
    else if (empNeg df s t g).length = 0 then none
    else
      match empGo df s t p gs with
      | none => none
      | some rest =>
        some ((g, (empTP df s t p g : ℚ) / ((empPos df s t g).length : ℚ),
                  (empFP df s t p g : ℚ) / ((empNeg df s t g).length : ℚ)) :: rest)

/-- `evaluate_model_performance` of fair2.py. -/
def evaluate_model_performance (df : Table) (s t p : String) :
    Option (List (Value × ℚ × ℚ)) :=
  empGo df s t p (uniqueVals df s)

/-! ## The analysis loop (`analyze_fairness`, fair.py 48-65)

For each sensitive column in the given order: a column absent from
`df.columns` gets the "Colonna sensibile non trovata" diagnostic and the
loop moves on; a present column gets the statistical-parity result.  An
exception raised by `statistical_parity_check` (the empty-map `max()`)
propagates and kills the rest of the loop; the entries already printed
stay, so the outcome is the emitted entries plus a completion flag. -/

/-- One printed entry of the analysis loop. -/
inductive AEntry where
  | columnNotFound (c : String)
  | result (c : String) (m : List (Value × ℚ)) (fair : Bool)
deriving DecidableEq, Repr

/-- `analyze_fairness` of fair.py: the entries emitted in input order, and
whether the loop ran to completion (false when a present column's check
raised). -/
def analyze_fairness (df : Table) (cols : List String) (t : String) (tv : Value) :
    List AEntry × Bool :=
  match cols with
  | [] => ([], true)
  | c :: rest =>
    if c ∈ df.cols then
      match statistical_parity_check df c t tv with
      | .ok (m, f) =>
        let rec_ := analyze_fairness df rest t tv
        (AEntry.result c m f :: rec_.1, rec_.2)
      | .error _ => ([], false)
    else
      let rec_ := analyze_fairness df rest t tv
      (AEntry.columnNotFound c :: rec_.1, rec_.2)

/-! ## Supporting lemmas -/

/-- A non-null cell is pandas-equal to itself. -/
theorem valEq_refl (v : Value) (h : v.isNull = false) : valEq v v = true := by
  cases v with
  | scalar sc => cases sc <;> simp_all [valEq, Value.isNull]
  | list xs => simp [valEq]

/-- Pandas equality holds exactly between equal non-null cells. -/
theorem valEq_eq_true_iff (a b : Value) :
    valEq a b = true ↔ a = b ∧ a.isNull = false := by
  cases a with
  | scalar sa =>
    cases b with
    | scalar sb => cases sa <;> cases sb <;> simp [valEq, Value.isNull]
    | list ys => cases sa <;> simp [valEq, Value.isNull]
  | list xs =>
    cases b with
    | scalar sb => cases sb <;> simp [valEq, Value.isNull]
    | list ys => simp [valEq, Value.isNull]

/-- The Python `max` of a non-empty list is one of its elements. -/
theorem maxQ_mem (l : List ℚ) (h : l ≠ []) : maxQ l ∈ l := by
  have key : ∀ (xs : List ℚ) (a : ℚ), xs.foldl max a = a ∨ xs.foldl max a ∈ xs := by
    intro xs
    induction xs with
    | nil => intro a; left; rfl
    | cons x xs ih =>
      intro a
      rcases ih (max a x) with h1 | h1
      · rcases max_choice a x with h2 | h2
        · left; rw [List.foldl_cons, h1, h2]
        · right; rw [List.foldl_cons, h1, h2]; exact List.mem_cons_self x xs
      · right; exact List.mem_cons_of_mem x h1
  cases l with
  | nil => exact absurd rfl h
  | cons x xs =>
    rcases key xs x with h1 | h1
    · rw [maxQ, h1]; exact List.mem_cons_self x xs
    · exact List.mem_cons_of_mem x h1

/-- Every element of a list is at most its Python `max`. -/
theorem le_maxQ (l : List ℚ) : ∀ x ∈ l, x ≤ maxQ l := by
  have key : ∀ (xs : List ℚ) (a : ℚ), a ≤ xs.foldl max a ∧ ∀ x ∈ xs, x ≤ xs.foldl max a := by
    intro xs
    induction xs with
    | nil => intro a; exact ⟨le_refl a, by simp⟩
    | cons x xs ih =>
      intro a
      have h := ih (max a x)
      refine ⟨le_trans (le_max_left a x) h.1, ?_⟩
      intro y hy
      rcases List.mem_cons.mp hy with rfl | hy
      · exact le_trans (le_max_right a y) h.1
      · exact h.2 y hy
  intro x hx
  cases l with
  | nil => cases hx
  | cons a xs =>
    rcases List.mem_cons.mp hx with rfl | hx
    · exact (key xs x).1
    · exact (key xs a).2 x hx

/-- The Python `min` of a non-empty list is one of its elements. -/
theorem minQ_mem (l : List ℚ) (h : l ≠ []) : minQ l ∈ l := by
  have key : ∀ (xs : List ℚ) (a : ℚ), xs.foldl min a = a ∨ xs.foldl min a ∈ xs := by
    intro xs
    induction xs with
    | nil => intro a; left; rfl
    | cons x xs ih =>
      intro a
      rcases ih (min a x) with h1 | h1
      · rcases min_choice a x with h2 | h2
        · left; rw [List.foldl_cons, h1, h2]
        · right; rw [List.foldl_cons, h1, h2]; exact List.mem_cons_self x xs
      · right; exact List.mem_cons_of_mem x h1
  cases l with
  | nil => exact absurd rfl h
  | cons x xs =>
    rcases key xs x with h1 | h1
    · rw [minQ, h1]; exact List.mem_cons_self x xs
    · exact List.mem_cons_of_mem x h1

/-- The Python `min` is a lower bound of the list. -/
theorem minQ_le (l : List ℚ) : ∀ x ∈ l, minQ l ≤ x := by
  have key : ∀ (xs : List ℚ) (a : ℚ), xs.foldl min a ≤ a ∧ ∀ x ∈ xs, xs.foldl min a ≤ x := by
    intro xs
    induction xs with
    | nil => intro a; exact ⟨le_refl a, by simp⟩
    | cons x xs ih =>
      intro a
      have h := ih (min a x)
      refine ⟨le_trans h.1 (min_le_left a x), ?_⟩
      intro y hy
      rcases List.mem_cons.mp hy with rfl | hy
      · exact le_trans h.1 (min_le_right a y)
      · exact h.2 y hy
  intro x hx
  cases l with
  | nil => cases hx
  | cons a xs =>
    rcases List.mem_cons.mp hx with rfl | hx
    · exact (key xs x).1
    · exact (key xs a).2 x hx

/-- Looking a key up in an association list built by tabulating `f` over a
key list gives `f` of the key, whenever the key occurs in the list. -/
theorem lookup_tabulate {α β : Type} [BEq α] [LawfulBEq α] (l : List α) (f : α → β)
    (g : α) (h : g ∈ l) :
    List.lookup g (l.map (fun x => (x, f x))) = some (f g) := by
  induction l with
  | nil => cases h
  | cons x xs ih =>
    rcases List.mem_cons.mp h with rfl | h
    · simp [List.lookup]
    · by_cases hx : g = x
      · subst hx; simp [List.lookup]
      · have hb : (g == x) = false := beq_eq_false_iff_ne.mpr hx
        rw [List.map_cons]
        simp only [List.lookup, hb]
        exact ih h

/-- Looking up a key that occurs nowhere in the key list gives none. -/
theorem lookup_tabulate_none {α β : Type} [BEq α] [LawfulBEq α] (l : List α) (f : α → β)
    (g : α) (h : g ∉ l) :
    List.lookup g (l.map (fun x => (x, f x))) = none := by
  induction l with
  | nil => rfl
  | cons x xs ih =>
    have hgx : g ≠ x := fun e => h (e ▸ List.mem_cons_self x xs)
    have htl : g ∉ xs := fun e => h (List.mem_cons_of_mem x e)
    have hb : (g == x) = false := beq_eq_false_iff_ne.mpr hgx
    rw [List.map_cons]
    simp only [List.lookup, hb]
    exact ih htl

/-- A filterMap whose function is total on the list is a map. -/
theorem filterMap_eq_map_of_isSome {α β : Type} (f : α → Option β) (d : β)
    (l : List α) (h : ∀ x ∈ l, (f x).isSome = true) :
    l.filterMap f = l.map (fun x => (f x).getD d) := by
  induction l with
  | nil => rfl
  | cons x xs ih =>
    have hx := h x (List.mem_cons_self x xs)
    obtain ⟨b, hb⟩ := Option.isSome_iff_exists.mp hx
    rw [List.filterMap_cons, hb, List.map_cons, hb,
      ih (fun y hy => h y (List.mem_cons_of_mem x hy))]
    rfl

/-- A null cell is pandas-unequal to everything. -/
theorem valEq_null_left (a b : Value) (h : a.isNull = true) : valEq a b = false := by
  cases a with
  | scalar sa => cases sa <;> simp_all [Value.isNull, valEq]
  | list xs => simp [Value.isNull] at h

/-- The group keys are exactly the non-null values the sensitive column
takes in some row. -/
theorem mem_spcGroups (df : Table) (s : String) (g : Value) :
    g ∈ spcGroups df s ↔ g.isNull = false ∧ ∃ r ∈ df.rows, rowGet r s = g := by
  rw [spcGroups, List.mem_dedup, List.mem_filter, colVals, List.mem_map]
  constructor
  · rintro ⟨⟨r, hr, rfl⟩, hn⟩
    simp only [Bool.not_eq_true'] at hn
    exact ⟨hn, r, hr, rfl⟩
  · rintro ⟨hn, r, hr, rfl⟩
    exact ⟨⟨r, hr, rfl⟩, by simp only [Bool.not_eq_true']; exact hn⟩

/-- Every group key has at least one row, so its denominator is positive. -/
theorem spcDen_pos (df : Table) (s : String) (g : Value) (h : g ∈ spcGroups df s) :
    0 < spcDen df s g := by
  obtain ⟨hn, r, hr, hg⟩ := (mem_spcGroups df s g).mp h
  exact List.countP_pos_iff.mpr ⟨r, hr, hg ▸ valEq_refl _ (hg ▸ hn)⟩

/-- A group's numerator counts a subset of the rows its denominator counts. -/
theorem spcNum_le_spcDen (df : Table) (s t : String) (tv g : Value) :
    spcNum df s t tv g ≤ spcDen df s g :=
  List.countP_mono_left (fun r _ h => by
    simp only [Bool.and_eq_true] at h
    exact h.1)

/-! ## C1: the group proportion map -/

/-- C1. For every non-null value `g` the sensitive column takes in some row,
the proportion map has an entry for `g` (it is not omitted) whose value is
the count of rows with sensitive value `g` and target equal to the target
value, divided by the count of all rows of the entire table with sensitive
value `g`; the denominator is positive, the numerator never exceeds it, and
a zero numerator is reported as the proportion 0. -/
theorem statistical_parity_map_lookup (df : Table) (s t : String) (tv : Value)
    (g : Value) (hnull : g.isNull = false) (hmem : ∃ r ∈ df.rows, rowGet r s = g) :
    List.lookup g (statistical_parity_map df s t tv) =
      some ((spcNum df s t tv g : ℚ) / (spcDen df s g : ℚ)) ∧
    0 < spcDen df s g ∧
    spcNum df s t tv g ≤ spcDen df s g ∧
    (spcNum df s t tv g = 0 →
      List.lookup g (statistical_parity_map df s t tv) = some 0) := by
  have hg : g ∈ spcGroups df s := (mem_spcGroups df s g).mpr ⟨hnull, hmem⟩
  have hl : List.lookup g (statistical_parity_map df s t tv) =
      some ((spcNum df s t tv g : ℚ) / (spcDen df s g : ℚ)) :=
    lookup_tabulate (spcGroups df s)
      (fun g => (spcNum df s t tv g : ℚ) / (spcDen df s g : ℚ)) g hg
  refine ⟨hl, spcDen_pos df s g hg, spcNum_le_spcDen df s t tv g, ?_⟩
  intro h0
  rw [hl, h0]
  norm_num

/-! ## C9: proportions lie in the unit interval -/

/-- C9. Every proportion in the group proportion map lies in [0, 1]. -/
theorem spc_proportion_in_unit_interval (df : Table) (s t : String) (tv : Value) :
    ∀ g q, (g, q) ∈ statistical_parity_map df s t tv → 0 ≤ q ∧ q ≤ 1 := by
  intro g q hm
  obtain ⟨a, ha, heq⟩ := List.mem_map.mp hm
  cases heq
  have hden : (0 : ℚ) < (spcDen df s g : ℚ) := by
    exact_mod_cast spcDen_pos df s g ha
  constructor
  · exact div_nonneg (by positivity) (le_of_lt hden)
  · rw [div_le_one hden]
    exact_mod_cast spcNum_le_spcDen df s t tv g

/-! ## C10: null sensitive values form no group -/

/-- C10. The proportion map's keys are exactly the distinct non-null values
the sensitive column takes: no key is null, a non-null value is a key
precisely when some row holds it, and every denominator is unchanged when
the rows with a null sensitive cell are removed from the table (null rows
contribute to no group's denominator). -/
theorem spc_null_rows_form_no_group (df : Table) (s t : String) (tv : Value) :
    (∀ g q, (g, q) ∈ statistical_parity_map df s t tv → g.isNull = false) ∧
    (∀ g, ((∃ q, (g, q) ∈ statistical_parity_map df s t tv) ↔
      g.isNull = false ∧ ∃ r ∈ df.rows, rowGet r s = g)) ∧
    (∀ g q, (g, q) ∈ statistical_parity_map df s t tv →
      spcDen df s g =
        spcDen ⟨df.cols, df.rows.filter (fun r => !(rowGet r s).isNull)⟩ s g) := by
  have hkey : ∀ g q, (g, q) ∈ statistical_parity_map df s t tv → g ∈ spcGroups df s := by
    intro g q hm
    obtain ⟨a, ha, heq⟩ := List.mem_map.mp hm
    cases heq
    exact ha
  refine ⟨fun g q hm => ((mem_spcGroups df s g).mp (hkey g q hm)).1, ?_, ?_⟩
  · intro g
    constructor
    · rintro ⟨q, hm⟩
      exact (mem_spcGroups df s g).mp (hkey g q hm)
    · intro h
      exact ⟨_, List.mem_map_of_mem _ ((mem_spcGroups df s g).mpr h)⟩
  · intro g q hm
    have hn : g.isNull = false := ((mem_spcGroups df s g).mp (hkey g q hm)).1
    rw [spcDen, spcDen, List.countP_filter]
    refine List.countP_congr ?_
    intro r _
    by_cases hr : (rowGet r s).isNull = true
    · simp [valEq_null_left _ g hr]
    · simp only [Bool.not_eq_true] at hr
      simp [hr]

/-! ## C2: disparity and verdict -/

/-- C2. Whenever the check returns (that is, the proportion map is
non-empty), the returned map is the group proportion map, the disparity is
the difference between the genuine maximum and minimum of the present
proportions, the verdict is true exactly when that disparity is at most
1/10, and a single-group map has disparity 0 (hence verdict true). -/
theorem spc_verdict (df : Table) (s t : String) (tv : Value)
    (m : List (Value × ℚ)) (f : Bool)
    (h : statistical_parity_check df s t tv = .ok (m, f)) :
    m = statistical_parity_map df s t tv ∧ m ≠ [] ∧
    spcDisparity df s t tv = maxQ (m.map Prod.snd) - minQ (m.map Prod.snd) ∧
    maxQ (m.map Prod.snd) ∈ m.map Prod.snd ∧
    minQ (m.map Prod.snd) ∈ m.map Prod.snd ∧
    (∀ x ∈ m.map Prod.snd,
      minQ (m.map Prod.snd) ≤ x ∧ x ≤ maxQ (m.map Prod.snd)) ∧
    (f = true ↔ spcDisparity df s t tv ≤ 1 / 10) ∧
    (m.length = 1 → spcDisparity df s t tv = 0) := by
  by_cases hm : statistical_parity_map df s t tv = []
  · rw [statistical_parity_check, if_pos hm] at h
    cases h
  · rw [statistical_parity_check, if_neg hm] at h
    injection h with h1
    have h2 : statistical_parity_map df s t tv = m := congrArg Prod.fst h1
    have h3 : decide (spcDisparity df s t tv ≤ 1 / 10) = f := congrArg Prod.snd h1
    subst h2
    subst h3
    have hne : (statistical_parity_map df s t tv).map Prod.snd ≠ [] :=
      fun e => hm (List.map_eq_nil_iff.mp e)
    have hp : spcProps df s t tv = (statistical_parity_map df s t tv).map Prod.snd := rfl
    refine ⟨rfl, hm, by rw [spcDisparity, hp], ?_, ?_, ?_, ?_, ?_⟩
    · exact maxQ_mem _ hne
    · exact minQ_mem _ hne
    · exact fun x hx => ⟨minQ_le _ x hx, le_maxQ _ x hx⟩
    · exact ⟨of_decide_eq_true, decide_eq_true⟩
    · intro hlen
      obtain ⟨a, ha⟩ := List.length_eq_one.mp hlen
      rw [spcDisparity, hp, ha]
      simp [maxQ, minQ]

/-! ## C3: a sensitive column with no values -/

/-- C3 (amended). When the sensitive column has no values at all (the
table is empty or the column entirely null), the faircompas variant of the
check returns the empty proportion map with a `true` verdict, while the
fair.py variant raises (`max()` on an empty sequence) instead of
returning. -/
theorem spc_no_sensitive_values (df : Table) (s t : String) (tv : Value)
    (h : ∀ r ∈ df.rows, (rowGet r s).isNull = true) :
    statistical_parity_check_compas df s t tv = ([], true) ∧
    statistical_parity_check df s t tv = .error "max() arg is an empty sequence" := by
  have hfil : (colVals df s).filter (fun v => !v.isNull) = [] := by
    rw [List.filter_eq_nil_iff]
    intro v hv
    obtain ⟨r, hr, rfl⟩ := List.mem_map.mp hv
    simp [h r hr]
  have hg : spcGroups df s = [] := by
    rw [spcGroups, hfil]
    rfl
  have hmap : statistical_parity_map df s t tv = [] := by
    rw [statistical_parity_map, hg]
    rfl
  constructor
  · rw [statistical_parity_check_compas, if_pos hmap]
  · rw [statistical_parity_check, if_pos hmap]

/-! ## C5 and C8: the performance evaluator's failure modes -/

/-- The loop of `evaluate_model_performance` succeeds exactly when every
group it visits has at least one ground-truth positive and one ground-truth
negative row; no other condition (in particular no label validation) can
make it fail. -/
theorem empGo_isSome_iff (df : Table) (s t p : String) (l : List Value) :
    (empGo df s t p l).isSome = true ↔
      ∀ g ∈ l, empPos df s t g ≠ [] ∧ empNeg df s t g ≠ [] := by
  induction l with
  | nil =>
    constructor
    · intro _ g hg
      cases hg
    · intro _
      rfl
  | cons g gs ih =>
    rw [empGo]
    by_cases hpos : (empPos df s t g).length = 0
    · rw [if_pos hpos]
      constructor
      · intro hs
        exact absurd hs (by simp)
      · intro hall
        exact absurd (List.length_eq_zero.mp hpos)
          (hall g (List.mem_cons_self g gs)).1
    · rw [if_neg hpos]
      by_cases hneg : (empNeg df s t g).length = 0
      · rw [if_pos hneg]
        constructor
        · intro hs
          exact absurd hs (by simp)
        · intro hall
          exact absurd (List.length_eq_zero.mp hneg)
            (hall g (List.mem_cons_self g gs)).2
      · rw [if_neg hneg]
        have hgp : empPos df s t g ≠ [] := fun e => hpos (by rw [e]; rfl)
        have hgn : empNeg df s t g ≠ [] := fun e => hneg (by rw [e]; rfl)
        cases hrec : empGo df s t p gs with
        | none =>
          constructor
          · intro hs
            exact absurd hs (by simp)
          · intro hall
            have hs := ih.mpr (fun x hx => hall x (List.mem_cons_of_mem g hx))
            rw [hrec] at hs
            exact absurd hs (by simp)
        | some rest =>
          constructor
          · intro _ x hx
            rcases List.mem_cons.mp hx with rfl | hx
            · exact ⟨hgp, hgn⟩
            · exact (ih.mp (by rw [hrec]; rfl)) x hx
          · intro _
            rfl

/-- C5 (amended). A group with no ground-truth positive rows makes the
performance evaluator fail with a division by zero (`none`); no NaN
sentinel is ever produced. -/
theorem emp_zero_positives_raises (df : Table) (s t p : String) (g : Value)
    (hg : g ∈ uniqueVals df s) (hpos : empPos df s t g = []) :
    evaluate_model_performance df s t p = none := by
  refine Option.not_isSome_iff_eq_none.mp ?_
  intro hs
  exact ((empGo_isSome_iff df s t p (uniqueVals df s)).mp hs g hg).1 hpos

/-- C8 (amended). The performance evaluator performs no label validation:
it returns a result exactly when every group has at least one row with
target 1 and one with target 0; the values held by the target and
prediction columns are otherwise unconstrained (a prediction other than 1
is silently counted as a negative prediction), and no invalid-label error
exists. -/
theorem emp_no_invalid_label_check (df : Table) (s t p : String) :
    (evaluate_model_performance df s t p).isSome = true ↔
      ∀ g ∈ uniqueVals df s, empPos df s t g ≠ [] ∧ empNeg df s t g ≠ [] :=
  empGo_isSome_iff df s t p (uniqueVals df s)

/-! ## C7: the conditional matrix -/

/-- The matrix keys are exactly the non-null (sensitive, control) pairs
occurring together in some row. -/
theorem mem_cspKeys (df : Table) (s c : String) (sv cv : Value) :
    (sv, cv) ∈ cspKeys df s c ↔
      sv.isNull = false ∧ cv.isNull = false ∧
      ∃ r ∈ df.rows, rowGet r s = sv ∧ rowGet r c = cv := by
  rw [cspKeys, List.mem_dedup, List.mem_filter, List.mem_map]
  constructor
  · rintro ⟨⟨r, hr, heq⟩, hn⟩
    have h1 : rowGet r s = sv := congrArg Prod.fst heq
    have h2 : rowGet r c = cv := congrArg Prod.snd heq
    simp only [Bool.and_eq_true, Bool.not_eq_true'] at hn
    exact ⟨hn.1, hn.2, r, hr, h1, h2⟩
  · rintro ⟨hs, hc, r, hr, h1, h2⟩
    refine ⟨⟨r, hr, by rw [h1, h2]⟩, ?_⟩
    simp only [Bool.and_eq_true, Bool.not_eq_true']
    exact ⟨hs, hc⟩

/-- A pair is a matrix key exactly when its cell has at least one matching
row. -/
theorem cspKeys_iff_rows (df : Table) (s c : String) (sv cv : Value) :
    (sv, cv) ∈ cspKeys df s c ↔ cspRows df s c (sv, cv) ≠ [] := by
  constructor
  · intro hk
    obtain ⟨hs, hc, r, hr, h1, h2⟩ := (mem_cspKeys df s c sv cv).mp hk
    have : r ∈ cspRows df s c (sv, cv) := by
      rw [cspRows, List.mem_filter]
      refine ⟨hr, ?_⟩
      simp only [Bool.and_eq_true]
      exact ⟨h1 ▸ valEq_refl _ (h1 ▸ hs), h2 ▸ valEq_refl _ (h2 ▸ hc)⟩
    exact List.ne_nil_of_mem this
  · intro hne
    obtain ⟨r, hr⟩ := List.exists_mem_of_ne_nil _ hne
    rw [cspRows, List.mem_filter] at hr
    have hb := hr.2
    simp only [Bool.and_eq_true] at hb
    obtain ⟨h1, hn1⟩ := (valEq_eq_true_iff _ _).mp hb.1
    obtain ⟨h2, hn2⟩ := (valEq_eq_true_iff _ _).mp hb.2
    exact (mem_cspKeys df s c sv cv).mpr
      ⟨h1 ▸ hn1, h2 ▸ hn2, r, hr.1, h1, h2⟩

/-- C7. When every target cell of the table is numeric, the conditional
matrix has no entry for a (sensitive, control) pair whose cell has zero
matching rows, and the entry of every pair with at least one matching row
is the arithmetic mean of the target column over that cell's rows. -/
theorem csp_matrix_cells (df : Table) (s t c : String)
    (hnum : ∀ r ∈ df.rows, ((rowGet r t).toQ).isSome = true) (sv cv : Value) :
    (List.lookup (sv, cv) (conditional_statistical_parity df s t c) = none ↔
      cspRows df s c (sv, cv) = []) ∧
    (∀ q, List.lookup (sv, cv) (conditional_statistical_parity df s t c) = some q →
      q = ((cspRows df s c (sv, cv)).map (fun r => ((rowGet r t).toQ).getD 0)).sum /
          ((cspRows df s c (sv, cv)).length : ℚ)) := by
  have hsub : ∀ r ∈ cspRows df s c (sv, cv), ((rowGet r t).toQ).isSome = true :=
    fun r hr => hnum r (List.mem_filter.mp hr).1
  have hnums : cspNums df s t c (sv, cv) =
      (cspRows df s c (sv, cv)).map (fun r => ((rowGet r t).toQ).getD 0) :=
    filterMap_eq_map_of_isSome _ 0 _ hsub
  by_cases hk : (sv, cv) ∈ cspKeys df s c
  · have hl : List.lookup (sv, cv) (conditional_statistical_parity df s t c) =
        some ((cspNums df s t c (sv, cv)).sum / ((cspNums df s t c (sv, cv)).length : ℚ)) :=
      lookup_tabulate (cspKeys df s c)
        (fun k => (cspNums df s t c k).sum / ((cspNums df s t c k).length : ℚ)) _ hk
    constructor
    · rw [hl]
      constructor
      · intro habs
        cases habs
      · intro hrows
        exact absurd ((cspKeys_iff_rows df s c sv cv).mp hk) (fun h => h hrows)
    · intro q hq
      rw [hl] at hq
      injection hq with hq
      rw [← hq, hnums, List.length_map]
  · have hl : List.lookup (sv, cv) (conditional_statistical_parity df s t c) = none :=
      lookup_tabulate_none (cspKeys df s c) _ _ hk
    constructor
    · rw [hl]
      constructor
      · intro _
        by_contra hrows
        exact hk ((cspKeys_iff_rows df s c sv cv).mpr hrows)
      · intro _
        rfl
    · intro q hq
      rw [hl] at hq
      cases hq

/-! ## C6: the per-column analysis loop -/

/-- C6. The analysis loop's two guarantees: a sensitive column absent from
the table only prepends its own `columnNotFound` diagnostic and the loop
carries on unchanged over the remaining columns (a missing column never
aborts the batch); and when every present column has a non-empty proportion
map the loop completes, producing one entry per requested column in the
input order -- the diagnostic for an absent column, the statistical-parity
result for a present one. -/
theorem analyze_fairness_contract (df : Table) (t : String) (tv : Value) :
    (∀ c cols, c ∉ df.cols →
      analyze_fairness df (c :: cols) t tv =
        (AEntry.columnNotFound c :: (analyze_fairness df cols t tv).1,
         (analyze_fairness df cols t tv).2)) ∧
    (∀ cols, (∀ c ∈ cols, c ∈ df.cols → statistical_parity_map df c t tv ≠ []) →
      analyze_fairness df cols t tv =
        (cols.map (fun c => if c ∈ df.cols then
            AEntry.result c (statistical_parity_map df c t tv)
              (decide (spcDisparity df c t tv ≤ 1 / 10))
          else AEntry.columnNotFound c), true)) := by
  constructor
  · intro c cols hc
    rw [analyze_fairness, if_neg hc]
  · intro cols
    induction cols with
    | nil =>
      intro _
      rfl
    | cons c rest ih =>
      intro h
      have htl := ih (fun x hx => h x (List.mem_cons_of_mem c hx))
      by_cases hc : c ∈ df.cols
      · have hmap := h c (List.mem_cons_self c rest) hc
        have hcheck : statistical_parity_check df c t tv =
            .ok (statistical_parity_map df c t tv,
                 decide (spcDisparity df c t tv ≤ 1 / 10)) := by
          rw [statistical_parity_check, if_neg hmap]
        rw [analyze_fairness, if_pos hc, hcheck, htl, List.map_cons, if_pos hc]
      · rw [analyze_fairness, if_neg hc, htl, List.map_cons, if_neg hc]

/-! ## Concrete tables

Small instances exercising each evaluator: a balanced two-group table, an
empty table, a table whose sensitive column is entirely null, a target
column mixing list and scalar cells, two prediction tables, and a
conditional-analysis table. -/

/-- Two groups A and B, half the rows of each with target 1. -/
def tableA : Table :=
  ⟨["group", "lab"],
   [[("group", vstr "A"), ("lab", vint 1)],
    [("group", vstr "A"), ("lab", vint 0)],
    [("group", vstr "B"), ("lab", vint 1)],
    [("group", vstr "B"), ("lab", vint 0)]]⟩

/-- A table with columns but no rows. -/
def tableEmpty : Table := ⟨["g", "t"], []⟩

/-- A table whose sensitive column holds only nulls. -/
def tableNullsOnly : Table :=
  ⟨["g", "t"], [[("g", vnull), ("t", vint 1)]]⟩

/-- A target column holding the cells [1], [] and the plain scalar 1. -/
def tableListTarget : Table :=
  ⟨["labels"],
   [[("labels", Value.list [.int 1])],
    [("labels", Value.list [])],
    [("labels", vint 1)]]⟩

/-- Group A has a positive and a negative row; group B has a single
negative row and no ground-truth positives. -/
def tablePerf : Table :=
  ⟨["g", "t", "p"],
   [[("g", vstr "A"), ("t", vint 1), ("p", vint 1)],
    [("g", vstr "A"), ("t", vint 0), ("p", vint 0)],
    [("g", vstr "B"), ("t", vint 0), ("p", vint 1)]]⟩

/-- A single group whose first positive row carries the prediction 2, a
value outside the binary label set. -/
def tablePred2 : Table :=
  ⟨["g", "t", "p"],
   [[("g", vstr "A"), ("t", vint 1), ("p", vint 2)],
    [("g", vstr "A"), ("t", vint 1), ("p", vint 1)],
    [("g", vstr "A"), ("t", vint 0), ("p", vint 0)]]⟩

/-- A conditional-analysis table: cell (A, 0) has two rows, cell (B, 1)
one, and the pair (B, 0) occurs in no row. -/
def tableCond : Table :=
  ⟨["g", "c", "t"],
   [[("g", vstr "A"), ("c", vint 0), ("t", vint 1)],
    [("g", vstr "A"), ("c", vint 0), ("t", vint 0)],
    [("g", vstr "B"), ("c", vint 1), ("t", vint 1)]]⟩

/-! ## Witnesses and concrete evaluations -/

/-- C1 witness: the map entry of group A of `tableA`. -/
theorem statistical_parity_map_lookup_witness :
    List.lookup (vstr "A") (statistical_parity_map tableA "group" "lab" (vint 1)) =
      some ((spcNum tableA "group" "lab" (vint 1) (vstr "A") : ℚ) /
        (spcDen tableA "group" (vstr "A") : ℚ)) ∧
    0 < spcDen tableA "group" (vstr "A") ∧
    spcNum tableA "group" "lab" (vint 1) (vstr "A") ≤ spcDen tableA "group" (vstr "A") ∧
    (spcNum tableA "group" "lab" (vint 1) (vstr "A") = 0 →
      List.lookup (vstr "A") (statistical_parity_map tableA "group" "lab" (vint 1)) =
        some 0) :=
  statistical_parity_map_lookup tableA "group" "lab" (vint 1) (vstr "A") (by decide)
    ⟨[("group", vstr "A"), ("lab", vint 1)], by decide, by decide⟩

/-- C2 witness: on `tableA`, the verdict bit decides the disparity
threshold and the proportion map is non-empty. -/
theorem spc_verdict_witness :
    ((decide (spcDisparity tableA "group" "lab" (vint 1) ≤ 1 / 10) : Bool) = true ↔
      spcDisparity tableA "group" "lab" (vint 1) ≤ 1 / 10) ∧
    statistical_parity_map tableA "group" "lab" (vint 1) ≠ [] :=
  ⟨(spc_verdict tableA "group" "lab" (vint 1) _ _ rfl).2.2.2.2.2.2.1,
   (spc_verdict tableA "group" "lab" (vint 1) _ _ rfl).2.1⟩

/-- C3 counterexample: on a table whose sensitive column has no values the
fair.py evaluator does fail (`max()` on an empty sequence) instead of
returning the empty map with a true verdict. -/
theorem spc_raises_on_no_sensitive_values :
    statistical_parity_check tableNullsOnly "g" "t" (vint 1) =
      .error "max() arg is an empty sequence" := rfl

/-- C3 witness: on the empty table, the faircompas variant returns the
empty map with a true verdict and the fair.py variant raises. -/
theorem spc_no_sensitive_values_witness :
    statistical_parity_check_compas tableEmpty "g" "t" (vint 1) = ([], true) ∧
    statistical_parity_check tableEmpty "g" "t" (vint 1) =
      .error "max() arg is an empty sequence" :=
  spc_no_sensitive_values tableEmpty "g" "t" (vint 1) (by decide)

/-- C4: on a target column holding [1], [] and the scalar 1, the
preprocessor yields 1, null, null -- the non-list cell 1 is nulled out
rather than passed through (the spec's Scenario D expects 1, null, 1). -/
theorem preprocess_target_mixed_column :
    (preprocess_target_column tableListTarget "labels").rows.map
      (fun r => rowGet r "labels") = [vint 1, vnull, vnull] := rfl

/-- C5 counterexample: group B of `tablePerf` has no ground-truth
positives and the evaluator fails (division by zero) instead of reporting
a NaN TPR. -/
theorem emp_no_nan_sentinel :
    evaluate_model_performance tablePerf "g" "t" "p" = none := rfl

/-- C5 witness: the amended statement at `tablePerf` and its group B. -/
theorem emp_zero_positives_raises_witness :
    evaluate_model_performance tablePerf "g" "t" "p" = none :=
  emp_zero_positives_raises tablePerf "g" "t" "p" (vstr "B") (by decide) (by decide)

/-- C8 counterexample: the row with prediction 2 is counted among group
A's positives, the true-positive count silently treats it as a negative
prediction, and the evaluator succeeds -- no InvalidLabel failure. -/
theorem emp_accepts_nonbinary_labels :
    (evaluate_model_performance tablePred2 "g" "t" "p").isSome = true ∧
    rowGet [("g", vstr "A"), ("t", vint 1), ("p", vint 2)] "p" = vint 2 ∧
    [("g", vstr "A"), ("t", vint 1), ("p", vint 2)] ∈ empPos tablePred2 "g" "t" (vstr "A") ∧
    empTP tablePred2 "g" "t" "p" (vstr "A") = 1 ∧
    (empPos tablePred2 "g" "t" (vstr "A")).length = 2 := by
  decide

/-- C9 witness: group A's proportion on `tableA` lies in [0, 1]. -/
theorem spc_proportion_in_unit_interval_witness :
    0 ≤ (spcNum tableA "group" "lab" (vint 1) (vstr "A") : ℚ) /
        (spcDen tableA "group" (vstr "A") : ℚ) ∧
    (spcNum tableA "group" "lab" (vint 1) (vstr "A") : ℚ) /
        (spcDen tableA "group" (vstr "A") : ℚ) ≤ 1 :=
  spc_proportion_in_unit_interval tableA "group" "lab" (vint 1) (vstr "A") _
    (List.mem_map_of_mem _ (by decide))

/-- C7 witness: the cell (A, 0) of `tableCond`. -/
theorem csp_matrix_cells_witness :
    (List.lookup (vstr "A", vint 0) (conditional_statistical_parity tableCond "g" "t" "c") =
        none ↔ cspRows tableCond "g" "c" (vstr "A", vint 0) = []) ∧
    (∀ q, List.lookup (vstr "A", vint 0)
        (conditional_statistical_parity tableCond "g" "t" "c") = some q →
      q = ((cspRows tableCond "g" "c" (vstr "A", vint 0)).map
            (fun r => ((rowGet r "t").toQ).getD 0)).sum /
          ((cspRows tableCond "g" "c" (vstr "A", vint 0)).length : ℚ)) :=
  csp_matrix_cells tableCond "g" "t" "c" (by decide) (vstr "A") (vint 0)
